import Mathlib

/-!
Verification development for the `openml-rust` repository
(`src/openml_api.rs`).  The Rust code is shallowly embedded:

* `serde_json::Value` becomes the inductive `Json`; the indexing operator
  (`value["key"]`, returning `Null` when absent) becomes `Json.get`, and
  `Value::pointer` (restricted to the object paths used by the code)
  becomes `Json.pointerPath`.
* Rust `panic!` / `.unwrap()` is modelled by `Except String`: a `.error`
  value is a panic carrying the panic message.
* `f64` values and arithmetic are modelled by exact rationals `ℚ`; the
  observable results of the measure accumulators, where IEEE special
  values matter (`0.0/0.0 = NaN`), are modelled by `F64`, rationals
  extended with `inf`, `neginf` and `nan`, with real-valued square root.
* Network and file-system effects are modelled by explicit state passing
  (`CacheState`); parsed documents are passed as `Json` values.
-/

set_option maxHeartbeats 1000000

namespace OpenML

/-! ## JSON model (`serde_json::Value`) -/

/-- Model of `serde_json::Value`.  Numbers are modelled as integers;
none of the code paths embedded here inspect numeric JSON values. -/
inductive Json where
  | null
  | bool (b : Bool)
  | num (n : Int)
  | str (s : String)
  | arr (items : List Json)
  | obj (fields : List (String × Json))

/-- `Value::as_str`. -/
def Json.asStr : Json → Option String
  | .str s => some s
  | _ => none

/-- `Value::as_array`. -/
def Json.asArr : Json → Option (List Json)
  | .arr items => some items
  | _ => none

/-- The `Index<&str>` operator on `serde_json::Value`: field of an
object, `Null` when the key is missing or the value is not an object. -/
def Json.get (j : Json) (k : String) : Json :=
  match j with
  | .obj fields =>
    match fields.find? (fun p => p.1 == k) with
    | some p => p.2
    | none => .null
  | _ => .null

/-- `Value::pointer`, restricted to paths of object keys (the only kind
of pointer the embedded code uses: `/task`,
`/data_set_description/url`, `/evaluation_measures/evaluation_measure`,
...). -/
def Json.pointerPath : Json → List String → Option Json
  | j, [] => some j
  | .obj fields, k :: ks =>
    match fields.find? (fun p => p.1 == k) with
    | some p => Json.pointerPath p.2 ks
    | none => none
  | _, _ :: _ => none

/-! ## Error type and outcomes -/

/-- The `Error` enum of `openml_api.rs`, verbatim.  Each variant wraps a
foreign error type, modelled opaquely as its message string.  Note that
there is no decode-error or unsupported-task variant. -/
inductive Error where
  | IoError (m : String)
  | Utf8Error (m : String)
  | HyperError (m : String)
  | HyperUriError (m : String)
  | HyperTlsError (m : String)
  | JsonError (m : String)
  | ArffError (m : String)

/-- A Rust computation that can panic: `.error msg` is a panic with the
given message. -/
abbrev PanicOr (α : Type) := Except String α

/-- The observable outcome of a fallible Rust call that returns
`Result<α, Error>` but may also panic: either a returned value, a
returned error, or a panic (process abort). -/
inductive Outcome (α : Type) where
  | ok (a : α)
  | err (e : Error)
  | panic (msg : String)

/-- Whether an outcome is a returned error value. -/
def Outcome.isErr : Outcome α → Bool
  | .err _ => true
  | _ => false

/-- Whether an outcome is a returned success value. -/
def Outcome.isOk : Outcome α → Bool
  | .ok _ => true
  | _ => false

/-- `Option::unwrap`: panics on `None`. -/
def optionUnwrap : Option α → PanicOr α
  | some a => .ok a
  | none => .error "called Option::unwrap() on a None value"

/-! ## List indexing utilities

`Vec` indexing with an out-of-range default (the Rust code always
indexes in bounds; the default makes the embedding total), positional
lookup, and `Vec::resize`. -/

/-- Indexing with default: `nthD l i d` is `l[i]` when `i` is in
bounds, `d` otherwise. -/
def nthD (l : List α) (i : Nat) (d : α) : α :=
  match l, i with
  | [], _ => d
  | x :: _, 0 => x
  | _ :: xs, n + 1 => nthD xs n d

/-- Positional lookup: `nthOpt l i = some l[i]` when in bounds. -/
def nthOpt (l : List α) (i : Nat) : Option α :=
  match l, i with
  | [], _ => none
  | x :: _, 0 => some x
  | _ :: xs, n + 1 => nthOpt xs n

/-- `Vec::resize(n, x)`: truncate or pad with copies of `x` to reach
length `n`. -/
def vecResize (l : List α) (n : Nat) (x : α) : List α :=
  if n ≤ l.length then l.take n else l ++ List.replicate (n - l.length) x

/-- Concatenation of a list of lists, as produced by
`flat_map(|inner| inner.iter())`. -/
def joinAll : List (List α) → List α
  | [] => []
  | xs :: rest => xs ++ joinAll rest

/-- Number of elements contributed by the first `r` inner lists: the
position at which the `r`-th inner list starts inside `joinAll`. -/
def sumLenBefore : List (List α) → Nat → Nat
  | _, 0 => 0
  | [], _ + 1 => 0
  | xs :: rest, r + 1 => xs.length + sumLenBefore rest r

/-! ## Cross-validation split structures -/

/-- The `TrainTest` enum (ARFF column `type`, values `TRAIN`/`TEST`). -/
inductive TrainTest where
  | Train
  | Test
deriving DecidableEq, Repr

/-- One record of the split file (`CrossValItem`).  The source field
`repeat` is a Lean keyword and is embedded as `rep`. -/
structure CrossValItem where
  purpose : TrainTest
  rowid : Nat
  rep : Nat
  fold : Nat
deriving DecidableEq, Repr

/-- One fold of a cross-validation plan (`CrossValidationFold`). -/
structure CrossValidationFold where
  trainset : List Nat
  testset : List Nat
deriving DecidableEq, Repr

/-- `CrossValidationFold::new`. -/
def CrossValidationFold.new : CrossValidationFold :=
  { trainset := [], testset := [] }

/-- `if item.repeat >= folds.len() { folds.resize(item.repeat + 1, vec![]); }` -/
def growOuter (folds : List (List CrossValidationFold)) (item : CrossValItem) :
    List (List CrossValidationFold) :=
  if folds.length ≤ item.rep then vecResize folds (item.rep + 1) [] else folds

/-- `if item.fold >= rep.len() { rep.resize(item.fold + 1, CrossValidationFold::new()); }` -/
def growInner (rep : List CrossValidationFold) (item : CrossValItem) :
    List CrossValidationFold :=
  if rep.length ≤ item.fold then vecResize rep (item.fold + 1) CrossValidationFold.new
  else rep

/-- `match item.purpose { Train => fold.trainset.push(item.rowid), Test => fold.testset.push(item.rowid) }` -/
def pushItem (fold : CrossValidationFold) (item : CrossValItem) : CrossValidationFold :=
  match item.purpose with
  | .Train => { fold with trainset := fold.trainset ++ [item.rowid] }
  | .Test => { fold with testset := fold.testset ++ [item.rowid] }

/-- The loop body of `From<CrossValSplits> for CrossValidation`:
process one split record, growing the nested containers on demand and
pushing the row id on the train or test side of its fold. -/
def cvStep (folds : List (List CrossValidationFold)) (item : CrossValItem) :
    List (List CrossValidationFold) :=
  let folds := growOuter folds item
  let rep := growInner (nthD folds item.rep []) item
  let fold := pushItem (nthD rep item.fold CrossValidationFold.new) item
  folds.set item.rep (rep.set item.fold fold)

/-- `From<CrossValSplits> for CrossValidation`: fold the loop body over
the flat record list, starting from the empty structure. -/
def cvFromSplits (data : List CrossValItem) : List (List CrossValidationFold) :=
  data.foldl cvStep []

/-- The `CrossValidation` struct. -/
structure CrossValidation where
  folds : List (List CrossValidationFold)

/-- `CrossValidation::from(CrossValSplits)`. -/
def CrossValidation.fromSplits (data : List CrossValItem) : CrossValidation :=
  { folds := cvFromSplits data }

/-- The `Procedure` enum. -/
inductive Procedure where
  | Frozen (xv : CrossValidation)

/-- `Procedure::iter`: flat-maps the nested fold structure, yielding
all folds of repeat 0 first, then repeat 1, and so on. -/
def Procedure.iter : Procedure → List CrossValidationFold
  | .Frozen xv => joinAll xv.folds

/-- The fold stored at `(repeat r, fold f)`, an empty fold when the
indices are out of range. -/
def getFold (folds : List (List CrossValidationFold)) (r f : Nat) :
    CrossValidationFold :=
  nthD (nthD folds r []) f CrossValidationFold.new

/-- Row ids of the `Train` records targeted at `(repeat r, fold f)`,
in record order. -/
def trainOf (r f : Nat) (data : List CrossValItem) : List Nat :=
  (data.filter
    (fun it => decide (it.rep = r ∧ it.fold = f ∧ it.purpose = .Train))).map
    (fun it => it.rowid)

/-- Row ids of the `Test` records targeted at `(repeat r, fold f)`,
in record order. -/
def testOf (r f : Nat) (data : List CrossValItem) : List Nat :=
  (data.filter
    (fun it => decide (it.rep = r ∧ it.fold = f ∧ it.purpose = .Test))).map
    (fun it => it.rowid)

/-- Maximum `repeat` index among the records (0 when there are none). -/
def maxRepeat (data : List CrossValItem) : Nat :=
  data.foldl (fun a it => max a it.rep) 0

/-- Maximum `fold` index among the records of repeat `r` (0 when there
are none). -/
def maxFoldAt (r : Nat) (data : List CrossValItem) : Nat :=
  data.foldl (fun a it => if it.rep = r then max a it.fold else a) 0

/-! ## Task descriptor resolution -/

/-- The `Measure` enum. -/
inductive Measure where
  | PredictiveAccuracy
  | RootMeanSquaredError
deriving DecidableEq, Repr

/-- `Measure::new`: reads
`/evaluation_measures/evaluation_measure` from the input block.
`None` means an empty measure list (no measure requested);
a missing pointer or any other value panics. -/
def Measure.new (item : Json) : PanicOr (Option Measure) :=
  match item.pointerPath ["evaluation_measures", "evaluation_measure"] with
  | none => .error "called Option::unwrap() on a None value"
  | some m =>
    match m with
    | .str s =>
      if s = "predictive_accuracy" then .ok (some .PredictiveAccuracy)
      else if s = "root_mean_squared_error" then .ok (some .RootMeanSquaredError)
      else .error "Invalid evaluation measure"
    | .arr v => if v.isEmpty then .ok none else .error "Invalid evaluation measure"
    | _ => .error "Invalid evaluation measure"

/-- The `CostMatrix` enum (only the empty matrix is supported). -/
inductive CostMatrix where
  | NoMatrix
deriving DecidableEq, Repr

/-- `From<&serde_json::Value> for CostMatrix`: panics unless the
`cost_matrix` field is an array; a non-empty matrix is unimplemented
(also a panic). -/
def CostMatrix.fromJson (item : Json) : PanicOr CostMatrix :=
  match (item.get "cost_matrix").asArr with
  | none => .error "invalid cots matrix"
  | some c => if c.isEmpty then .ok .NoMatrix else .error "not implemented: cost matrix"

/-- `SupervisedClassification`.  `DataSet` and `Procedure` resolution
goes through the network (`From<&Value> for DataSet` calls
`get_cached`); those two fields are embedded as the captured input
blocks they are built from. -/
structure SupervisedClassification where
  source_data : Json
  estimation_procedure : Json
  cost_matrix : CostMatrix
  evaluation_measures : Measure

/-- Loop state of `SupervisedClassification::new`. -/
structure ClsLoopState where
  source_data : Option Json
  estimation_procedure : Option Json
  cost_matrix : Option CostMatrix
  evaluation_measures : Measure

/-- One iteration of the input-block loop of
`SupervisedClassification::new`. -/
def clsStep (st : ClsLoopState) (item : Json) : PanicOr ClsLoopState :=
  match (item.get "name").asStr with
  | some "source_data" => .ok { st with source_data := some item }
  | some "estimation_procedure" => .ok { st with estimation_procedure := some item }
  | some "cost_matrix" => do
    let c ← CostMatrix.fromJson item
    .ok { st with cost_matrix := some c }
  | some "evaluation_measures" => do
    let m ← Measure.new item
    .ok { st with evaluation_measures := m.getD st.evaluation_measures }
  | some _ => .ok st
  | none => .error "/task/input/name is not a string"

/-- `SupervisedClassification::new`: the measure starts at the
`PredictiveAccuracy` default and an empty measure block leaves it
unchanged (`unwrap_or`); missing `source_data`, `estimation_procedure`
or `cost_matrix` blocks panic at the final unwraps. -/
def SupervisedClassification.new (input : List Json) :
    PanicOr SupervisedClassification := do
  let st ← input.foldlM clsStep
    { source_data := none, estimation_procedure := none, cost_matrix := none,
      evaluation_measures := .PredictiveAccuracy }
  let sd ← optionUnwrap st.source_data
  let ep ← optionUnwrap st.estimation_procedure
  let cm ← optionUnwrap st.cost_matrix
  .ok { source_data := sd, estimation_procedure := ep, cost_matrix := cm,
        evaluation_measures := st.evaluation_measures }

/-- `SupervisedRegression`, fields captured as in
`SupervisedClassification`. -/
structure SupervisedRegression where
  source_data : Json
  estimation_procedure : Json
  evaluation_measures : Measure

/-- Loop state of `SupervisedRegression::new`. -/
structure RegLoopState where
  source_data : Option Json
  estimation_procedure : Option Json
  evaluation_measures : Option Measure

/-- One iteration of the input-block loop of
`SupervisedRegression::new`: note that the measure accumulator is
*replaced* by the `Option` returned by `Measure::new`. -/
def regStep (st : RegLoopState) (item : Json) : PanicOr RegLoopState :=
  match (item.get "name").asStr with
  | some "source_data" => .ok { st with source_data := some item }
  | some "estimation_procedure" => .ok { st with estimation_procedure := some item }
  | some "evaluation_measures" => do
    let m ← Measure.new item
    .ok { st with evaluation_measures := m }
  | some _ => .ok st
  | none => .error "/task/input/name is not a string"

/-- `SupervisedRegression::new`: no default measure; a missing (or
empty) `evaluation_measures` block panics at the final unwrap. -/
def SupervisedRegression.new (input : List Json) :
    PanicOr SupervisedRegression := do
  let st ← input.foldlM regStep
    { source_data := none, estimation_procedure := none, evaluation_measures := none }
  let sd ← optionUnwrap st.source_data
  let ep ← optionUnwrap st.estimation_procedure
  let em ← optionUnwrap st.evaluation_measures
  .ok { source_data := sd, estimation_procedure := ep, evaluation_measures := em }

/-- The two `TaskType` implementations (the boxed trait object of the
source becomes a sum type). -/
inductive TaskKind where
  | classification (c : SupervisedClassification)
  | regression (r : SupervisedRegression)

/-- Rust `Debug` formatting of the matched `Option<&str>`, as
interpolated into the panic message of `OpenML::task_type`. -/
def fmtOptStr : Option String → String
  | some s => "Some(\"" ++ s ++ "\")"
  | none => "None"

/-- `OpenML::task_type`: dispatch on `task_type_id`; `"1"` is
classification, `"2"` is regression, anything else panics with an
explicit unsupported-task-type message. -/
def task_type (task_json : Json) : PanicOr TaskKind :=
  match (task_json.get "input").asArr with
  | none => .error "called Option::unwrap() on a None value"
  | some input =>
    match (task_json.get "task_type_id").asStr with
    | some "1" => (SupervisedClassification.new input).map TaskKind.classification
    | some "2" => (SupervisedRegression.new input).map TaskKind.regression
    | tt => .error ("unsupported task type " ++ fmtOptStr tt)

/-- The `Task` struct. -/
structure Task where
  task_id : String
  task_name : String
  task_type : TaskKind

/-- `OpenML::task`, from the fetch of the task document onwards: the
network fetch and JSON parsing (`get_cached` + `serde_json::from_str`,
whose failures would surface as `Outcome.err`) are abstracted — the
already-parsed response document is the argument.  Mirrors the unwraps
on `/task`, `task_id`, `task_name` and the `task_type` dispatch. -/
def task (response : Json) : Outcome Task :=
  match response.pointerPath ["task"] with
  | none => .panic "called Option::unwrap() on a None value"
  | some tj =>
    match (tj.get "task_id").asStr with
    | none => .panic "called Option::unwrap() on a None value"
    | some tid =>
      match (tj.get "task_name").asStr with
      | none => .panic "called Option::unwrap() on a None value"
      | some tname =>
        match task_type tj with
        | .error msg => .panic msg
        | .ok tt => .ok { task_id := tid, task_name := tname, task_type := tt }

/-! ## DataSet target resolution

`From<&serde_json::Value> for DataSet` fetches the dataset-description
document and the ARFF table through the cache; the target-column
computation is the pure part embedded here.  `item` is the
`source_data` input block of the task, `info` the fetched
dataset-description document. -/

/-- The target column of the resolved `DataSet`: the task's explicitly
requested `target_feature` (read from `item["data_set"]["target_feature"]`),
the dataset's own `default_target_attribute` otherwise, `none` when
neither is present.  The `match` mirrors the source's arm order:
`(Some(s), None) | (_, Some(s)) => Some(s)`, `(None, None) => None`. -/
def datasetTarget (item info : Json) : Option String :=
  let target := ((item.get "data_set").get "target_feature").asStr
  let default_target :=
    (info.pointerPath ["data_set_description", "default_target_attribute"]).bind
      Json.asStr
  match default_target, target with
  | some s, none => some s
  | _, some s => some s
  | none, none => none

/-! ## Measure accumulators

`f64` values are modelled as exact rationals; the observable result,
where IEEE special values matter, is an `F64`. -/

/-- Observable `f64` results: a finite real value, infinities, or NaN. -/
inductive F64 where
  | num (x : ℝ)
  | inf
  | neginf
  | nan

/-- IEEE `f64` division of a (nonnegative-zero-signed) rational by a
rational: `0/0` is NaN, `x/0` is a signed infinity, otherwise the exact
quotient. -/
noncomputable def f64Div (a b : ℚ) : F64 :=
  if b = 0 then
    if a = 0 then .nan else if a < 0 then .neginf else .inf
  else .num ((a / b : ℚ) : ℝ)

/-- IEEE `f64` square root: `sqrt NaN = NaN`, `sqrt (-∞) = NaN`. -/
noncomputable def f64Sqrt : F64 → F64
  | .num x => .num (Real.sqrt x)
  | .inf => .inf
  | .neginf => .nan
  | .nan => .nan

/-- The `Accuracy` accumulator: counts of exactly-equal and differing
pairs (both `f64` counters in the source). -/
structure Accuracy where
  n_correct : ℚ
  n_wrong : ℚ
deriving DecidableEq, Repr

/-- `Accuracy::new`. -/
def Accuracy.new : Accuracy := { n_correct := 0, n_wrong := 0 }

/-- Loop body of `Accuracy::update`: bump one counter per pair. -/
def accStep (acc : Accuracy) (kp : ℚ × ℚ) : Accuracy :=
  if kp.1 = kp.2 then { acc with n_correct := acc.n_correct + 1 }
  else { acc with n_wrong := acc.n_wrong + 1 }

/-- `Accuracy::update`: zips `known` against `predicted` positionally
and bumps one counter per pair. -/
def Accuracy.update (a : Accuracy) (known predicted : List ℚ) : Accuracy :=
  (known.zip predicted).foldl accStep a

/-- `Accuracy::result`: `n_correct / (n_correct + n_wrong)` in `f64`
(NaN when no pair was ever counted). -/
noncomputable def Accuracy.result (a : Accuracy) : F64 :=
  f64Div a.n_correct (a.n_correct + a.n_wrong)

/-- The `RootMeanSquaredError` accumulator: running sum of squared
differences (`f64`) and count of processed pairs (`usize`). -/
structure RootMeanSquaredError where
  sum_of_squares : ℚ
  n : ℕ
deriving DecidableEq, Repr

/-- `RootMeanSquaredError::new`. -/
def RootMeanSquaredError.new : RootMeanSquaredError :=
  { sum_of_squares := 0, n := 0 }

/-- Loop body of `RootMeanSquaredError::update`:
`let diff = k - p; n += 1; sum_of_squares += diff * diff`. -/
def rmseStep (acc : RootMeanSquaredError) (kp : ℚ × ℚ) : RootMeanSquaredError :=
  { acc with
    n := acc.n + 1,
    sum_of_squares := acc.sum_of_squares + (kp.1 - kp.2) * (kp.1 - kp.2) }

/-- `RootMeanSquaredError::update`: per positional pair, add the
squared difference and bump the pair count. -/
def RootMeanSquaredError.update (a : RootMeanSquaredError)
    (known predicted : List ℚ) : RootMeanSquaredError :=
  (known.zip predicted).foldl rmseStep a

/-- `RootMeanSquaredError::result`: `sqrt(sum_of_squares / n)` in `f64`
(NaN when `n = 0`, since then `sum_of_squares = 0.0` as well for any
reachable state, and `0.0/0.0 = NaN`, `sqrt(NaN) = NaN`). -/
noncomputable def RootMeanSquaredError.result (a : RootMeanSquaredError) : F64 :=
  f64Sqrt (f64Div a.sum_of_squares (a.n : ℚ))

/-- Number of positions where `known` and `predicted` agree exactly. -/
def countEqN (known predicted : List ℚ) : ℕ :=
  ((known.zip predicted).filter (fun kp => decide (kp.1 = kp.2))).length

/-- Number of positions where `known` and `predicted` differ. -/
def countNeN (known predicted : List ℚ) : ℕ :=
  ((known.zip predicted).filter (fun kp => !(decide (kp.1 = kp.2)))).length

/-! ## The locked file cache, sequential semantics

`get_cached` interacts with the file system, the network and advisory
file locks.  The claims checked here concern a single process running
with no interference, so the embedding gives the sequential semantics:
opening a file succeeds exactly when it exists, exclusive creation
succeeds exactly when it does not, the locks have no observable effect,
and I/O and network transport are assumed to succeed (the retry loop of
the source is then executed at most once). -/

/-- State threaded through `get_cached`: the cache directory (filename
to contents), the network as a response oracle, and a count of
performed network downloads. -/
structure CacheState where
  fs : List (String × String)
  network : String → String
  fetches : ℕ

/-- Contents of a cache file, when it exists. -/
def lookupFs (fs : List (String × String)) (k : String) : Option String :=
  (fs.find? (fun p => p.1 == k)).map (fun p => p.2)

/-- `url_to_file`: `s.replace('/', "_").replace(':', "")`. -/
def url_to_file (s : String) : String :=
  (s.replace "/" "_").replace ":" ""

/-- `get_cached`, sequential semantics: return the cached contents when
the cache file exists; otherwise download, write the response body to
the cache file, and return it. -/
def get_cached (url : String) (s : CacheState) : String × CacheState :=
  let filename := "cache/" ++ url_to_file url
  match lookupFs s.fs filename with
  | some data => (data, s)
  | none =>
    let data := s.network url
    (data, { s with fs := (filename, data) :: s.fs, fetches := s.fetches + 1 })

/-! ## Concrete inputs used by counterexamples and witnesses -/

/-- Split records placing row 0 in both the train and the test side of
fold `(0, 0)`. -/
def cvDataBad : List CrossValItem :=
  [{ purpose := .Train, rowid := 0, rep := 0, fold := 0 },
   { purpose := .Test, rowid := 0, rep := 0, fold := 0 }]

/-- Well-formed split records for a two-row dataset. -/
def cvDataOk : List CrossValItem :=
  [{ purpose := .Train, rowid := 0, rep := 0, fold := 0 },
   { purpose := .Test, rowid := 1, rep := 0, fold := 0 }]

/-- Sparse split records: repeat 0 names only fold 1, repeat 1 is never
named, repeat 2 names fold 0. -/
def cvDataW : List CrossValItem :=
  [{ purpose := .Train, rowid := 5, rep := 0, fold := 1 },
   { purpose := .Test, rowid := 7, rep := 2, fold := 0 }]

/-- The `/task` object of a task document with the unsupported
`task_type_id` `"99"`. -/
def task99obj : Json :=
  .obj [("task_id", .str "42"), ("task_name", .str "unsupported-demo"),
        ("task_type_id", .str "99"), ("input", .arr [])]

/-- A task document whose `task_type_id` is `"99"`. -/
def resp99 : Json := .obj [("task", task99obj)]

/-- A `source_data` input block requesting the target column
`"label"`. -/
def itemLabel : Json :=
  .obj [("name", .str "source_data"),
        ("data_set", .obj [("data_set_id", .str "7"),
                           ("target_feature", .str "label")])]

/-- A dataset-description document declaring the default target
`"class"`. -/
def infoClass : Json :=
  .obj [("data_set_description",
         .obj [("default_target_attribute", .str "class")])]

/-- A `source_data` input block with no requested target. -/
def sdItem : Json := .obj [("name", .str "source_data")]

/-- An `estimation_procedure` input block. -/
def epItem : Json := .obj [("name", .str "estimation_procedure")]

/-- A `cost_matrix` input block carrying the empty matrix. -/
def cmItem : Json := .obj [("name", .str "cost_matrix"), ("cost_matrix", .arr [])]

/-- Classification task input with no `evaluation_measures` block. -/
def inputCls : List Json := [sdItem, epItem, cmItem]

/-- The classification task resolved from `inputCls`. -/
def clsW : SupervisedClassification :=
  { source_data := sdItem, estimation_procedure := epItem,
    cost_matrix := .NoMatrix, evaluation_measures := .PredictiveAccuracy }

/-- Regression task input with no `evaluation_measures` block. -/
def inputReg : List Json := [sdItem, epItem]

/-- An arbitrary regression value (resolution of `inputReg` must not
produce any value at all). -/
def regW : SupervisedRegression :=
  { source_data := sdItem, estimation_procedure := epItem,
    evaluation_measures := .RootMeanSquaredError }

/-- The accuracy accumulator after `update([1,2,3], [1,2,4])`. -/
def accW : Accuracy := Accuracy.new.update [1, 2, 3] [1, 2, 4]

/-- The RMSE accumulator after `update([0,0], [3,4])`. -/
def rmseW : RootMeanSquaredError := RootMeanSquaredError.new.update [0, 0] [3, 4]

/-- Update calls that process no pair at all. -/
def emptyCalls : List (List ℚ × List ℚ) := [([], [1]), ([2], [])]

/-- Tests whether an `evaluation_measures` block carries an empty
measure list (`/evaluation_measures/evaluation_measure` is `[]`). -/
def isEmptyMeasureBlock (item : Json) : Bool :=
  match item.pointerPath ["evaluation_measures", "evaluation_measure"] with
  | some (.arr []) => true
  | _ => false

/-! ## List indexing lemmas -/

theorem nthD_nil (i : Nat) (d : α) : nthD ([] : List α) i d = d := by
  cases i <;> rfl

theorem nthD_append_replicate (l : List α) (k : Nat) (x : α) (i : Nat) :
    nthD (l ++ List.replicate k x) i x = nthD l i x := by
  induction l generalizing i with
  | nil =>
    simp only [List.nil_append, nthD_nil]
    induction k generalizing i with
    | zero => simp [List.replicate, nthD]
    | succ k ih =>
      cases i with
      | zero => simp [List.replicate, nthD]
      | succ i => simpa [List.replicate, nthD] using ih i
  | cons y ys ih =>
    cases i with
    | zero => rfl
    | succ i => simpa [nthD] using ih i

theorem nthD_set_self (l : List α) (i : Nat) (a d : α) (h : i < l.length) :
    nthD (l.set i a) i d = a := by
  induction l generalizing i with
  | nil => simp at h
  | cons x xs ih =>
    cases i with
    | zero => rfl
    | succ i =>
      simp only [List.set, nthD]
      exact ih i (by simpa using h)

theorem nthD_set_ne (l : List α) (i j : Nat) (a d : α) (h : i ≠ j) :
    nthD (l.set i a) j d = nthD l j d := by
  induction l generalizing i j with
  | nil => cases i <;> rfl
  | cons x xs ih =>
    cases i with
    | zero =>
      cases j with
      | zero => exact absurd rfl h
      | succ j => rfl
    | succ i =>
      cases j with
      | zero => rfl
      | succ j => simpa [List.set, nthD] using ih i j (by omega)

theorem nthOpt_append_left (xs ys : List α) (i : Nat) (h : i < xs.length) :
    nthOpt (xs ++ ys) i = nthOpt xs i := by
  induction xs generalizing i with
  | nil => simp at h
  | cons x l ih =>
    cases i with
    | zero => rfl
    | succ i => simpa [nthOpt] using ih i (by simpa using h)

theorem nthOpt_append_right (xs ys : List α) (j : Nat) :
    nthOpt (xs ++ ys) (xs.length + j) = nthOpt ys j := by
  induction xs with
  | nil => simp
  | cons x l ih => simpa [nthOpt, Nat.succ_add] using ih

theorem nthOpt_eq_some_nthD (l : List α) (i : Nat) (d : α) (h : i < l.length) :
    nthOpt l i = some (nthD l i d) := by
  induction l generalizing i with
  | nil => simp at h
  | cons x xs ih =>
    cases i with
    | zero => rfl
    | succ i => simpa [nthOpt, nthD] using ih i (by simpa using h)

/-! ### Lemmas about the fold-building loop -/

theorem length_vecResize (l : List α) (n : Nat) (x : α) (h : l.length ≤ n) :
    (vecResize l n x).length = n := by
  unfold vecResize
  split
  · simp only [List.length_take]
    omega
  · simp only [List.length_append, List.length_replicate]
    omega

theorem nthD_growOuter (folds : List (List CrossValidationFold))
    (it : CrossValItem) (i : Nat) :
    nthD (growOuter folds it) i [] = nthD folds i [] := by
  unfold growOuter
  split
  · unfold vecResize
    rw [if_neg (by omega)]
    exact nthD_append_replicate folds _ [] i
  · rfl

theorem length_growOuter (folds : List (List CrossValidationFold))
    (it : CrossValItem) :
    (growOuter folds it).length = max folds.length (it.rep + 1) := by
  unfold growOuter
  split
  · rw [length_vecResize _ _ _ (by omega)]
    omega
  · omega

theorem rep_lt_length_growOuter (folds : List (List CrossValidationFold))
    (it : CrossValItem) : it.rep < (growOuter folds it).length := by
  rw [length_growOuter]
  omega

theorem nthD_growInner (rep : List CrossValidationFold) (it : CrossValItem)
    (j : Nat) :
    nthD (growInner rep it) j CrossValidationFold.new
      = nthD rep j CrossValidationFold.new := by
  unfold growInner
  split
  · unfold vecResize
    rw [if_neg (by omega)]
    exact nthD_append_replicate rep _ _ j
  · rfl

theorem length_growInner (rep : List CrossValidationFold) (it : CrossValItem) :
    (growInner rep it).length = max rep.length (it.fold + 1) := by
  unfold growInner
  split
  · rw [length_vecResize _ _ _ (by omega)]
    omega
  · omega

theorem fold_lt_length_growInner (rep : List CrossValidationFold)
    (it : CrossValItem) : it.fold < (growInner rep it).length := by
  rw [length_growInner]
  omega

/-- What one loop iteration does to the fold at `(r, f)`: the record's
target fold receives the row id on its purpose's side, every other fold
is untouched. -/
theorem getFold_cvStep (folds : List (List CrossValidationFold))
    (it : CrossValItem) (r f : Nat) :
    getFold (cvStep folds it) r f =
      if it.rep = r ∧ it.fold = f then pushItem (getFold folds r f) it
      else getFold folds r f := by
  unfold cvStep getFold
  by_cases hr : it.rep = r
  · subst hr
    rw [nthD_set_self _ _ _ _ (rep_lt_length_growOuter folds it)]
    by_cases hf : it.fold = f
    · subst hf
      rw [if_pos ⟨rfl, rfl⟩]
      rw [nthD_set_self _ _ _ _ (fold_lt_length_growInner _ it)]
      rw [nthD_growInner, nthD_growOuter]
    · rw [if_neg (by simp [hf])]
      rw [nthD_set_ne _ _ _ _ _ hf]
      rw [nthD_growInner, nthD_growOuter]
  · rw [if_neg (by simp [hr])]
    rw [nthD_set_ne _ _ _ _ _ hr, nthD_growOuter]

theorem length_cvStep (folds : List (List CrossValidationFold))
    (it : CrossValItem) :
    (cvStep folds it).length = max folds.length (it.rep + 1) := by
  unfold cvStep
  rw [List.length_set, length_growOuter]

theorem inner_length_cvStep (folds : List (List CrossValidationFold))
    (it : CrossValItem) (r : Nat) :
    (nthD (cvStep folds it) r []).length =
      if it.rep = r then max (nthD folds r []).length (it.fold + 1)
      else (nthD folds r []).length := by
  unfold cvStep
  by_cases hr : it.rep = r
  · subst hr
    rw [if_pos rfl]
    rw [nthD_set_self _ _ _ _ (rep_lt_length_growOuter folds it)]
    rw [List.length_set, length_growInner, nthD_growOuter]
  · rw [if_neg hr]
    rw [nthD_set_ne _ _ _ _ _ hr, nthD_growOuter]

/-- Characterization of the whole loop, generalized over the starting
accumulator: each fold collects exactly the row ids of the records
aimed at it, in record order, appended to what the accumulator already
held. -/
theorem getFold_foldl_cvStep (data : List CrossValItem)
    (acc : List (List CrossValidationFold)) (r f : Nat) :
    getFold (data.foldl cvStep acc) r f =
      { trainset := (getFold acc r f).trainset ++ trainOf r f data,
        testset := (getFold acc r f).testset ++ testOf r f data } := by
  induction data generalizing acc with
  | nil =>
    simp [trainOf, testOf]
  | cons it rest ih =>
    rw [List.foldl_cons, ih (cvStep acc it), getFold_cvStep]
    by_cases h : it.rep = r ∧ it.fold = f
    · rw [if_pos h]
      obtain ⟨h1, h2⟩ := h
      cases hp : it.purpose
      · simp [pushItem, hp, trainOf, testOf, h1, h2, List.filter_cons]
      · simp [pushItem, hp, trainOf, testOf, h1, h2, List.filter_cons]
    · rw [if_neg h]
      have ht : trainOf r f (it :: rest) = trainOf r f rest := by
        simp only [trainOf, List.filter_cons]
        rw [if_neg (by simp; tauto)]
      have hs : testOf r f (it :: rest) = testOf r f rest := by
        simp only [testOf, List.filter_cons]
        rw [if_neg (by simp; tauto)]
      rw [ht, hs]

/-- Each fold of the built structure holds exactly the row ids of the
records aimed at it, in record order. -/
theorem getFold_cvFromSplits (data : List CrossValItem) (r f : Nat) :
    getFold (cvFromSplits data) r f =
      { trainset := trainOf r f data, testset := testOf r f data } := by
  have h := getFold_foldl_cvStep data [] r f
  simpa [getFold, nthD_nil, CrossValidationFold.new] using h

theorem length_foldl_cvStep (data : List CrossValItem)
    (acc : List (List CrossValidationFold)) :
    (data.foldl cvStep acc).length =
      data.foldl (fun a it => max a (it.rep + 1)) acc.length := by
  induction data generalizing acc with
  | nil => rfl
  | cons it rest ih =>
    rw [List.foldl_cons, List.foldl_cons, ih (cvStep acc it), length_cvStep]

theorem foldl_max_rep_succ (data : List CrossValItem) (a : Nat) :
    data.foldl (fun x it => max x (it.rep + 1)) (a + 1) =
      data.foldl (fun x it => max x it.rep) a + 1 := by
  induction data generalizing a with
  | nil => rfl
  | cons it rest ih =>
    rw [List.foldl_cons, List.foldl_cons]
    have h : max (a + 1) (it.rep + 1) = max a it.rep + 1 := by omega
    rw [h, ih]

/-- The outer length of the built structure is the maximum repeat index
seen, plus one (the record list being nonempty). -/
theorem length_cvFromSplits (data : List CrossValItem) (h : data ≠ []) :
    (cvFromSplits data).length = maxRepeat data + 1 := by
  cases data with
  | nil => exact absurd rfl h
  | cons it rest =>
    rw [cvFromSplits, length_foldl_cvStep, maxRepeat]
    rw [List.foldl_cons, List.foldl_cons]
    have h1 : max (List.length ([] : List (List CrossValidationFold))) (it.rep + 1)
        = it.rep + 1 := by simp
    have h2 : max 0 it.rep = it.rep := by omega
    rw [h1, h2, foldl_max_rep_succ]

theorem inner_length_foldl_cvStep (data : List CrossValItem)
    (acc : List (List CrossValidationFold)) (r : Nat) :
    (nthD (data.foldl cvStep acc) r []).length =
      data.foldl (fun a it => if it.rep = r then max a (it.fold + 1) else a)
        (nthD acc r []).length := by
  induction data generalizing acc with
  | nil => rfl
  | cons it rest ih =>
    rw [List.foldl_cons, List.foldl_cons, ih (cvStep acc it), inner_length_cvStep]

theorem foldl_max_fold_succ (data : List CrossValItem) (r a : Nat) :
    data.foldl (fun x it => if it.rep = r then max x (it.fold + 1) else x) (a + 1) =
      data.foldl (fun x it => if it.rep = r then max x it.fold else x) a + 1 := by
  induction data generalizing a with
  | nil => rfl
  | cons it rest ih =>
    rw [List.foldl_cons, List.foldl_cons]
    by_cases hr : it.rep = r
    · rw [if_pos hr, if_pos hr]
      have h : max (a + 1) (it.fold + 1) = max a it.fold + 1 := by omega
      rw [h, ih]
    · rw [if_neg hr, if_neg hr, ih]

theorem foldl_max_fold_of_mem (data : List CrossValItem) (r : Nat)
    (h : ∃ it ∈ data, it.rep = r) :
    data.foldl (fun x it => if it.rep = r then max x (it.fold + 1) else x) 0 =
      data.foldl (fun x it => if it.rep = r then max x it.fold else x) 0 + 1 := by
  induction data with
  | nil => simp at h
  | cons it rest ih =>
    rw [List.foldl_cons, List.foldl_cons]
    by_cases hr : it.rep = r
    · rw [if_pos hr, if_pos hr]
      have h1 : max 0 (it.fold + 1) = it.fold + 1 := by omega
      have h2 : max 0 it.fold = it.fold := by omega
      rw [h1, h2, foldl_max_fold_succ]
    · rw [if_neg hr, if_neg hr]
      apply ih
      rcases h with ⟨x, hx, hxr⟩
      rcases List.mem_cons.mp hx with h' | h'
      · exact absurd (h' ▸ hxr) hr
      · exact ⟨x, h', hxr⟩

/-- For a repeat index named by at least one record, the inner length
is the maximum fold index seen for that repeat, plus one. -/
theorem inner_length_cvFromSplits (data : List CrossValItem) (r : Nat)
    (h : ∃ it ∈ data, it.rep = r) :
    (nthD (cvFromSplits data) r []).length = maxFoldAt r data + 1 := by
  rw [cvFromSplits, inner_length_foldl_cvStep, maxFoldAt]
  simpa [nthD_nil] using foldl_max_fold_of_mem data r h

/-- A repeat index named by no record holds no folds at all. -/
theorem inner_nil_cvFromSplits (data : List CrossValItem) (r : Nat)
    (h : ∀ it ∈ data, it.rep ≠ r) :
    nthD (cvFromSplits data) r [] = [] := by
  have hl : (nthD (cvFromSplits data) r []).length = 0 := by
    rw [cvFromSplits, inner_length_foldl_cvStep]
    simp only [nthD_nil, List.length_nil]
    induction data with
    | nil => rfl
    | cons it rest ih =>
      rw [List.foldl_cons, if_neg (h it (List.mem_cons_self it rest))]
      exact ih (fun x hx => h x (List.mem_cons_of_mem it hx))
  exact List.length_eq_zero.mp hl

/-- Positional structure of `joinAll`: the element at offset
`sumLenBefore xss r + f` is the `f`-th element of the `r`-th inner
list. -/
theorem nthOpt_joinAll (xss : List (List α)) (r f : Nat)
    (h : f < (nthD xss r []).length) :
    nthOpt (joinAll xss) (sumLenBefore xss r + f) = nthOpt (nthD xss r []) f := by
  induction xss generalizing r with
  | nil =>
    rw [nthD_nil] at h
    simp at h
  | cons xs rest ih =>
    cases r with
    | zero =>
      have hx : nthD (xs :: rest) 0 [] = xs := rfl
      rw [hx] at h ⊢
      show nthOpt (xs ++ joinAll rest) (0 + f) = nthOpt xs f
      rw [Nat.zero_add]
      exact nthOpt_append_left xs (joinAll rest) f h
    | succ r =>
      have hx : nthD (xs :: rest) (r + 1) [] = nthD rest r [] := rfl
      rw [hx] at h ⊢
      show nthOpt (xs ++ joinAll rest) (xs.length + sumLenBefore rest r + f)
        = nthOpt (nthD rest r []) f
      rw [Nat.add_assoc, nthOpt_append_right]
      exact ih r h

/-! ## Measure accumulator lemmas -/

theorem filter_length_add (l : List α) (p : α → Bool) :
    (l.filter p).length + (l.filter (fun x => !p x)).length = l.length := by
  induction l with
  | nil => rfl
  | cons x rest ih =>
    by_cases h : p x = true
    · simp [List.filter_cons, h]
      omega
    · simp [List.filter_cons, h]
      omega

theorem zip_take_min (k p : List ℚ) :
    (k.take (min k.length p.length)).zip (p.take (min k.length p.length))
      = k.zip p := by
  induction k generalizing p with
  | nil => simp
  | cons x krest ih =>
    cases p with
    | nil => simp
    | cons y prest =>
      have hm : min (krest.length + 1) (prest.length + 1)
          = min krest.length prest.length + 1 := by omega
      simp only [List.length_cons, hm, List.take_succ_cons, List.zip_cons_cons]
      rw [ih prest]

theorem accStep_foldl (l : List (ℚ × ℚ)) (a : Accuracy) :
    (l.foldl accStep a).n_correct
        = a.n_correct + ((l.filter (fun kp => decide (kp.1 = kp.2))).length : ℚ)
    ∧ (l.foldl accStep a).n_wrong
        = a.n_wrong + ((l.filter (fun kp => !decide (kp.1 = kp.2))).length : ℚ) := by
  induction l generalizing a with
  | nil => simp
  | cons kp rest ih =>
    obtain ⟨ih1, ih2⟩ := ih (accStep a kp)
    rw [List.foldl_cons]
    constructor
    · rw [ih1]
      by_cases h : kp.1 = kp.2
      · simp [accStep, h, List.filter_cons]
        ring
      · simp [accStep, h, List.filter_cons]
    · rw [ih2]
      by_cases h : kp.1 = kp.2
      · simp [accStep, h, List.filter_cons]
      · simp [accStep, h, List.filter_cons]
        ring

theorem rmseStep_foldl (l : List (ℚ × ℚ)) (a : RootMeanSquaredError) :
    (l.foldl rmseStep a).sum_of_squares
        = a.sum_of_squares + (l.map (fun kp => (kp.1 - kp.2) * (kp.1 - kp.2))).sum
    ∧ (l.foldl rmseStep a).n = a.n + l.length := by
  induction l generalizing a with
  | nil => simp
  | cons kp rest ih =>
    obtain ⟨ih1, ih2⟩ := ih (rmseStep a kp)
    rw [List.foldl_cons]
    constructor
    · rw [ih1]
      simp [rmseStep]
      ring
    · rw [ih2]
      simp [rmseStep]
      omega

/-! ## Claim theorems -/

/-- C5: for every URL and every cache state, calling `get_cached` twice
sequentially returns identical content both times, the second call
leaves the state untouched (in particular it performs no network
fetch), and the second call is served from the cache file written or
found by the first. -/
theorem get_cached_idempotent (url : String) (s : CacheState) :
    (get_cached url (get_cached url s).2).1 = (get_cached url s).1
    ∧ (get_cached url (get_cached url s).2).2 = (get_cached url s).2
    ∧ ((get_cached url (get_cached url s).2).2).fetches = ((get_cached url s).2).fetches
    ∧ lookupFs ((get_cached url s).2).fs ("cache/" ++ url_to_file url)
        = some (get_cached url s).1 := by
  cases h : lookupFs s.fs ("cache/" ++ url_to_file url) with
  | some d =>
    refine ⟨?_, ?_, ?_, ?_⟩ <;> simp [get_cached, h]
  | none =>
    have hfind : lookupFs ((("cache/" ++ url_to_file url), s.network url) :: s.fs)
        ("cache/" ++ url_to_file url) = some (s.network url) := by
      simp [lookupFs, List.find?]
    refine ⟨?_, ?_, ?_, ?_⟩ <;> simp [get_cached, h, hfind]

/-- C3: target-column precedence in dataset resolution — an explicitly
requested `target_feature` always wins; otherwise the dataset's
`default_target_attribute` is used; with neither present the resolved
target is `none`. -/
theorem datasetTarget_precedence (item info : Json) :
    (∀ r, ((item.get "data_set").get "target_feature").asStr = some r →
      datasetTarget item info = some r)
    ∧ (((item.get "data_set").get "target_feature").asStr = none →
      ∀ d, (info.pointerPath ["data_set_description", "default_target_attribute"]).bind
          Json.asStr = some d →
      datasetTarget item info = some d)
    ∧ (((item.get "data_set").get "target_feature").asStr = none →
      (info.pointerPath ["data_set_description", "default_target_attribute"]).bind
          Json.asStr = none →
      datasetTarget item info = none) := by
  refine ⟨?_, ?_, ?_⟩
  · intro r hr
    unfold datasetTarget
    rw [hr]
    cases hd : (info.pointerPath ["data_set_description", "default_target_attribute"]).bind
        Json.asStr <;> rfl
  · intro hr d hd
    unfold datasetTarget
    rw [hr, hd]
  · intro hr hd
    unfold datasetTarget
    rw [hr, hd]

/-- C3 witness: a dataset declaring default target `"class"` combined
with a task requesting target `"label"` resolves to `"label"`. -/
theorem datasetTarget_precedence_witness :
    ((itemLabel.get "data_set").get "target_feature").asStr = some "label"
    ∧ datasetTarget itemLabel infoClass = some "label" :=
  have h : ((itemLabel.get "data_set").get "target_feature").asStr = some "label" := rfl
  ⟨h, (datasetTarget_precedence itemLabel infoClass).1 "label" h⟩

/-- C7: every `Accuracy::update` call adds the number of exactly-equal
positional pairs to `n_correct` and the number of differing pairs to
`n_wrong`; the result is `n_correct / (n_correct + n_wrong)`; and
`update([1,2,3],[1,2,4])` followed by `result` yields `2/3`. -/
theorem accuracy_update_result :
    (∀ (a : Accuracy) (known predicted : List ℚ),
      (a.update known predicted).n_correct = a.n_correct + (countEqN known predicted : ℚ)
      ∧ (a.update known predicted).n_wrong = a.n_wrong + (countNeN known predicted : ℚ))
    ∧ (∀ a : Accuracy, a.n_correct + a.n_wrong ≠ 0 →
      a.result = F64.num ((a.n_correct : ℝ) / ((a.n_correct : ℝ) + (a.n_wrong : ℝ))))
    ∧ (Accuracy.new.update [1, 2, 3] [1, 2, 4]).result = F64.num ((2 : ℝ) / 3) := by
  refine ⟨?_, ?_, ?_⟩
  · intro a known predicted
    exact accStep_foldl (known.zip predicted) a
  · intro a h
    unfold Accuracy.result f64Div
    rw [if_neg h]
    push_cast
    rfl
  · have h : Accuracy.new.update [1, 2, 3] [1, 2, 4]
        = { n_correct := 2, n_wrong := 1 } := by
      norm_num [Accuracy.update, Accuracy.new, accStep, List.zip_cons_cons,
        List.zip_nil_left, List.zip_nil_right]
    rw [h]
    unfold Accuracy.result f64Div
    norm_num

/-- C7 witness: the result formula applied to the concrete accumulator
reached by `update([1,2,3],[1,2,4])`. -/
theorem accuracy_update_result_witness :
    accW.result = F64.num ((accW.n_correct : ℝ) / ((accW.n_correct : ℝ) + (accW.n_wrong : ℝ))) :=
  accuracy_update_result.2.1 accW (by
    norm_num [accW, Accuracy.update, Accuracy.new, accStep, List.zip_cons_cons,
      List.zip_nil_left, List.zip_nil_right])

/-- C8: every `RootMeanSquaredError::update` call adds the squared
differences of the positional pairs to `sum_of_squares` and their
number to `n`; when pairs were processed the result is
`sqrt(sum_of_squares / n)`; and `update([0,0],[3,4])` followed by
`result` yields `sqrt((9+16)/2)`. -/
theorem rmse_update_result :
    (∀ (a : RootMeanSquaredError) (known predicted : List ℚ),
      (a.update known predicted).sum_of_squares
          = a.sum_of_squares
            + ((known.zip predicted).map (fun kp => (kp.1 - kp.2) * (kp.1 - kp.2))).sum
      ∧ (a.update known predicted).n = a.n + (known.zip predicted).length)
    ∧ (∀ a : RootMeanSquaredError, a.n ≠ 0 →
      a.result = F64.num (Real.sqrt ((a.sum_of_squares : ℝ) / (a.n : ℝ))))
    ∧ (RootMeanSquaredError.new.update [0, 0] [3, 4]).result
        = F64.num (Real.sqrt (((9 : ℝ) + 16) / 2)) := by
  refine ⟨?_, ?_, ?_⟩
  · intro a known predicted
    exact rmseStep_foldl (known.zip predicted) a
  · intro a h
    unfold RootMeanSquaredError.result f64Div f64Sqrt
    rw [if_neg (by exact_mod_cast h)]
    push_cast
    rfl
  · have h : RootMeanSquaredError.new.update [0, 0] [3, 4]
        = { sum_of_squares := 25, n := 2 } := by
      norm_num [RootMeanSquaredError.update, RootMeanSquaredError.new, rmseStep,
        List.zip_cons_cons, List.zip_nil_left, List.zip_nil_right]
    rw [h]
    unfold RootMeanSquaredError.result f64Div f64Sqrt
    norm_num

/-- C8 witness: the result formula applied to the concrete accumulator
reached by `update([0,0],[3,4])`. -/
theorem rmse_update_result_witness :
    rmseW.result = F64.num (Real.sqrt ((rmseW.sum_of_squares : ℝ) / (rmseW.n : ℝ))) :=
  rmse_update_result.2.1 rmseW (by decide)

/-- C9: both accumulators process exactly `min(|known|, |predicted|)`
positional pairs per update call — the pair count grows by exactly that
number, and trailing elements of the longer sequence are ignored (the
update equals the update on the truncated sequences); no error is
raised (`update` is total by construction). -/
theorem update_truncates_to_shorter :
    (∀ (a : Accuracy) (known predicted : List ℚ),
      (a.update known predicted).n_correct + (a.update known predicted).n_wrong
        = a.n_correct + a.n_wrong + ((min known.length predicted.length : ℕ) : ℚ))
    ∧ (∀ (a : Accuracy) (known predicted : List ℚ),
      a.update known predicted
        = a.update (known.take (min known.length predicted.length))
            (predicted.take (min known.length predicted.length)))
    ∧ (∀ (a : RootMeanSquaredError) (known predicted : List ℚ),
      (a.update known predicted).n = a.n + min known.length predicted.length)
    ∧ (∀ (a : RootMeanSquaredError) (known predicted : List ℚ),
      a.update known predicted
        = a.update (known.take (min known.length predicted.length))
            (predicted.take (min known.length predicted.length))) := by
  refine ⟨?_, ?_, ?_, ?_⟩
  · intro a known predicted
    obtain ⟨h1, h2⟩ := accStep_foldl (known.zip predicted) a
    rw [Accuracy.update, h1, h2]
    have hlen := filter_length_add (known.zip predicted)
      (fun kp => decide (kp.1 = kp.2))
    rw [List.length_zip] at hlen
    rw [← hlen]
    push_cast
    ring
  · intro a known predicted
    unfold Accuracy.update
    rw [zip_take_min]
  · intro a known predicted
    obtain ⟨h1, h2⟩ := rmseStep_foldl (known.zip predicted) a
    rw [RootMeanSquaredError.update, h2, List.length_zip]
  · intro a known predicted
    unfold RootMeanSquaredError.update
    rw [zip_take_min]

/-- C10: a `RootMeanSquaredError` accumulator through which no pair has
passed — freshly created, or updated only with calls that pair up no
elements — has result NaN (`0.0 / 0` is NaN and `sqrt(NaN)` is NaN). -/
theorem rmse_no_updates_nan :
    RootMeanSquaredError.new.result = F64.nan
    ∧ ∀ calls : List (List ℚ × List ℚ),
      (∀ c ∈ calls, c.1.zip c.2 = []) →
      (calls.foldl (fun a c => a.update c.1 c.2) RootMeanSquaredError.new).result
        = F64.nan := by
  have hnew : RootMeanSquaredError.new.result = F64.nan := by
    unfold RootMeanSquaredError.result RootMeanSquaredError.new f64Div f64Sqrt
    norm_num
  refine ⟨hnew, ?_⟩
  intro calls h
  have hfix : calls.foldl (fun a c => a.update c.1 c.2) RootMeanSquaredError.new
      = RootMeanSquaredError.new := by
    induction calls with
    | nil => rfl
    | cons c rest ih =>
      rw [List.foldl_cons]
      have hz : RootMeanSquaredError.new.update c.1 c.2 = RootMeanSquaredError.new := by
        rw [RootMeanSquaredError.update, h c (List.mem_cons_self c rest)]
        rfl
      rw [hz]
      exact ih (fun x hx => h x (List.mem_cons_of_mem c hx))
  rw [hfix]
  exact hnew

/-- C10 witness: two concrete calls pairing no elements leave the
result NaN. -/
theorem rmse_no_updates_nan_witness :
    (emptyCalls.foldl (fun a c => a.update c.1 c.2) RootMeanSquaredError.new).result
      = F64.nan :=
  rmse_no_updates_nan.2 emptyCalls (by decide)

/-- C4: the built fold structure has outer length `maximum repeat seen
+ 1`; a repeat named by some record has inner length `maximum fold seen
for it + 1`; a repeat named by no record holds no folds; each fold
collects exactly the row ids of the records aimed at it (train records
into `trainset`, test records into `testset`, in record order, so
indices named by no record hold empty folds); and `Procedure::iter`
visits the folds in row-major order (the fold at `(r, f)` appears at
position `sumLenBefore folds r + f`). -/
theorem cv_build_structure :
    (∀ data : List CrossValItem, data ≠ [] →
      (cvFromSplits data).length = maxRepeat data + 1)
    ∧ (∀ (data : List CrossValItem) (r : Nat), (∃ it ∈ data, it.rep = r) →
      (nthD (cvFromSplits data) r []).length = maxFoldAt r data + 1)
    ∧ (∀ (data : List CrossValItem) (r : Nat), (∀ it ∈ data, it.rep ≠ r) →
      nthD (cvFromSplits data) r [] = [])
    ∧ (∀ (data : List CrossValItem) (r f : Nat),
      getFold (cvFromSplits data) r f
        = { trainset := trainOf r f data, testset := testOf r f data })
    ∧ (∀ (data : List CrossValItem) (r f : Nat),
      (∀ it ∈ data, ¬(it.rep = r ∧ it.fold = f)) →
      getFold (cvFromSplits data) r f = CrossValidationFold.new)
    ∧ (∀ (xv : CrossValidation) (r f : Nat),
      f < (nthD xv.folds r []).length →
      nthOpt (Procedure.iter (Procedure.Frozen xv)) (sumLenBefore xv.folds r + f)
        = some (getFold xv.folds r f)) := by
  refine ⟨length_cvFromSplits, inner_length_cvFromSplits, inner_nil_cvFromSplits,
    getFold_cvFromSplits, ?_, ?_⟩
  · intro data r f h
    rw [getFold_cvFromSplits]
    have ht : trainOf r f data = [] := by
      unfold trainOf
      have : data.filter
          (fun it => decide (it.rep = r ∧ it.fold = f ∧ it.purpose = TrainTest.Train))
          = [] := by
        rw [List.filter_eq_nil_iff]
        intro a ha
        simp only [decide_eq_true_eq]
        intro hc
        exact h a ha ⟨hc.1, hc.2.1⟩
      rw [this, List.map_nil]
    have hs : testOf r f data = [] := by
      unfold testOf
      have : data.filter
          (fun it => decide (it.rep = r ∧ it.fold = f ∧ it.purpose = TrainTest.Test))
          = [] := by
        rw [List.filter_eq_nil_iff]
        intro a ha
        simp only [decide_eq_true_eq]
        intro hc
        exact h a ha ⟨hc.1, hc.2.1⟩
      rw [this, List.map_nil]
    rw [ht, hs]
    rfl
  · intro xv r f h
    have h1 := nthOpt_joinAll xv.folds r f h
    have h2 := nthOpt_eq_some_nthD (nthD xv.folds r []) f CrossValidationFold.new h
    exact h1.trans h2

/-- C4 witness: the sparse record list `cvDataW` (repeat 0 names fold
1, repeat 2 names fold 0, repeat 1 unnamed). -/
theorem cv_build_structure_witness :
    (cvFromSplits cvDataW).length = maxRepeat cvDataW + 1
    ∧ (nthD (cvFromSplits cvDataW) 0 []).length = maxFoldAt 0 cvDataW + 1
    ∧ nthD (cvFromSplits cvDataW) 1 [] = []
    ∧ getFold (cvFromSplits cvDataW) 0 0 = CrossValidationFold.new
    ∧ nthOpt (Procedure.iter (Procedure.Frozen (CrossValidation.fromSplits cvDataW)))
        (sumLenBefore (CrossValidation.fromSplits cvDataW).folds 0 + 1)
        = some (getFold (CrossValidation.fromSplits cvDataW).folds 0 1) :=
  ⟨cv_build_structure.1 cvDataW (by decide),
   cv_build_structure.2.1 cvDataW 0 (by decide),
   cv_build_structure.2.2.1 cvDataW 1 (by decide),
   cv_build_structure.2.2.2.2.1 cvDataW 0 0 (by decide),
   cv_build_structure.2.2.2.2.2 (CrossValidation.fromSplits cvDataW) 0 1 (by decide)⟩

/-- C1 counterexample: the fold builder performs no disjointness check —
a record list placing row 0 on both sides of fold `(0, 0)` yields a
fold whose trainset and testset intersect. -/
theorem fold_partition_counterexample :
    0 ∈ (getFold (cvFromSplits cvDataBad) 0 0).trainset
    ∧ 0 ∈ (getFold (cvFromSplits cvDataBad) 0 0).testset := by
  decide

/-- C1 (amended): provided the split records themselves are well formed
— no row id occurs as both a train and a test record of the same
`(repeat, fold)`, and every row id is below the dataset's row count —
every built fold has disjoint trainset and testset, and all indices are
below the row count. -/
theorem fold_partition_of_wellformed_splits :
    ∀ (data : List CrossValItem) (nrows : Nat),
      (∀ i ∈ data, ∀ j ∈ data, i.rep = j.rep → i.fold = j.fold →
        i.purpose = TrainTest.Train → j.purpose = TrainTest.Test →
        i.rowid ≠ j.rowid) →
      (∀ i ∈ data, i.rowid < nrows) →
      ∀ r f,
        (∀ x ∈ (getFold (cvFromSplits data) r f).trainset,
          x ∉ (getFold (cvFromSplits data) r f).testset)
        ∧ (∀ x ∈ (getFold (cvFromSplits data) r f).trainset, x < nrows)
        ∧ (∀ x ∈ (getFold (cvFromSplits data) r f).testset, x < nrows) := by
  intro data nrows hdisj hbound r f
  rw [getFold_cvFromSplits]
  refine ⟨?_, ?_, ?_⟩
  · intro x hx hx'
    simp only [trainOf, List.mem_map, List.mem_filter, decide_eq_true_eq] at hx
    simp only [testOf, List.mem_map, List.mem_filter, decide_eq_true_eq] at hx'
    obtain ⟨i, ⟨hi, hir, hif, hip⟩, hix⟩ := hx
    obtain ⟨j, ⟨hj, hjr, hjf, hjp⟩, hjx⟩ := hx'
    exact hdisj i hi j hj (hir.trans hjr.symm) (hif.trans hjf.symm) hip hjp
      (hix.trans hjx.symm)
  · intro x hx
    simp only [trainOf, List.mem_map, List.mem_filter, decide_eq_true_eq] at hx
    obtain ⟨i, ⟨hi, _⟩, hix⟩ := hx
    exact hix ▸ hbound i hi
  · intro x hx
    simp only [testOf, List.mem_map, List.mem_filter, decide_eq_true_eq] at hx
    obtain ⟨i, ⟨hi, _⟩, hix⟩ := hx
    exact hix ▸ hbound i hi

/-- Helper for C2: with the `input` array present and a `task_type_id`
that is neither `"1"` nor `"2"` (or is not a string at all),
`OpenML::task_type` panics with the unsupported-task-type message. -/
theorem task_type_unsupported (tj : Json) (input : List Json)
    (h4 : (tj.get "input").asArr = some input)
    (h5 : ∀ s, (tj.get "task_type_id").asStr = some s → s ≠ "1" ∧ s ≠ "2") :
    task_type tj
      = .error ("unsupported task type " ++ fmtOptStr ((tj.get "task_type_id").asStr)) := by
  unfold task_type
  rw [h4]
  cases hs : (tj.get "task_type_id").asStr with
  | none => rfl
  | some s =>
    obtain ⟨hs1, hs2⟩ := h5 s hs
    split <;> simp_all

/-- C2 counterexample: on the task document with `task_type_id = "99"`,
resolution does not surface any error value to the caller (and in
particular no decode error — the `Error` enum has no such variant): it
panics, aborting the process with the unsupported-task-type message. -/
theorem unsupported_task_type_counterexample :
    task resp99 = Outcome.panic "unsupported task type Some(\"99\")"
    ∧ (task resp99).isErr = false
    ∧ (task resp99).isOk = false :=
  ⟨rfl, rfl, rfl⟩

/-- C2 (amended): for every task document whose `/task` object carries
the required string fields and input array but whose `task_type_id` is
not one of the supported codes `"1"` and `"2"`, task resolution fails
by panicking with an explicit unsupported-task-type message (a fatal
abort, not a returned error value), and never silently selects a
default task kind. -/
theorem unsupported_task_type_panics :
    ∀ (response tj : Json) (tid tname : String) (input : List Json),
      response.pointerPath ["task"] = some tj →
      (tj.get "task_id").asStr = some tid →
      (tj.get "task_name").asStr = some tname →
      (tj.get "input").asArr = some input →
      (∀ s, (tj.get "task_type_id").asStr = some s → s ≠ "1" ∧ s ≠ "2") →
      task response
        = Outcome.panic ("unsupported task type "
            ++ fmtOptStr ((tj.get "task_type_id").asStr)) := by
  intro response tj tid tname input h1 h2 h3 h4 h5
  have htt := task_type_unsupported tj input h4 h5
  simp only [task, h1, h2, h3, htt]

/-- C2 witness: the amended claim applied to the concrete `"99"`
document. -/
theorem unsupported_task_type_panics_witness :
    task resp99
      = Outcome.panic ("unsupported task type "
          ++ fmtOptStr ((task99obj.get "task_type_id").asStr)) :=
  unsupported_task_type_panics resp99 task99obj "42" "unsupported-demo" [] rfl rfl rfl rfl
    (by
      intro s hs
      have h99 : (task99obj.get "task_type_id").asStr = some "99" := rfl
      rw [h99] at hs
      injection hs with h
      subst h
      exact ⟨by decide, by decide⟩)

theorem except_bind_ok (a : α) (f : α → Except ε β) :
    (Except.ok a >>= f) = f a := rfl

theorem except_bind_error (e : ε) (f : α → Except ε β) :
    ((Except.error e : Except ε α) >>= f) = Except.error e := rfl

/-- An `evaluation_measures` block carrying an empty measure list makes
`Measure::new` return no measure (without panicking). -/
theorem measure_new_empty (item : Json) (h : isEmptyMeasureBlock item = true) :
    Measure.new item = .ok none := by
  unfold isEmptyMeasureBlock at h
  unfold Measure.new
  cases hp : item.pointerPath ["evaluation_measures", "evaluation_measure"] with
  | none =>
    rw [hp] at h
    simp at h
  | some m =>
    rw [hp] at h
    cases m with
    | null => simp at h
    | bool b => simp at h
    | num n => simp at h
    | str s => simp at h
    | obj fields => simp at h
    | arr v =>
      cases v with
      | nil => rfl
      | cons x xs => simp at h

/-- Loop invariant of `SupervisedClassification::new`: when every
`evaluation_measures` block of the input carries an empty measure list,
the measure accumulator is left at its starting value. -/
theorem clsLoop_measure (input : List Json) :
    ∀ st : ClsLoopState,
      (∀ item ∈ input, (item.get "name").asStr = some "evaluation_measures" →
        isEmptyMeasureBlock item = true) →
      ∀ st', input.foldlM clsStep st = .ok st' →
        st'.evaluation_measures = st.evaluation_measures := by
  induction input with
  | nil =>
    intro st h st' he
    rw [List.foldlM_nil] at he
    injection he with h'
    rw [← h']
  | cons item rest ih =>
    intro st h st' he
    rw [List.foldlM_cons] at he
    cases hc : clsStep st item with
    | error e =>
      rw [hc, except_bind_error] at he
      simp at he
    | ok st1 =>
      rw [hc, except_bind_ok] at he
      have hm : st1.evaluation_measures = st.evaluation_measures := by
        unfold clsStep at hc
        split at hc
        · injection hc with h'
          rw [← h']
        · injection hc with h'
          rw [← h']
        · cases hcm : CostMatrix.fromJson item with
          | error e => rw [hcm, except_bind_error] at hc; simp at hc
          | ok cm =>
            rw [hcm, except_bind_ok] at hc
            injection hc with h'
            rw [← h']
        · next heq =>
          rw [measure_new_empty item (h item (List.mem_cons_self item rest) heq),
            except_bind_ok] at hc
          injection hc with h'
          rw [← h']
          rfl
        · injection hc with h'
          rw [← h']
        · simp at hc
      rw [ih st1 (fun x hx => h x (List.mem_cons_of_mem item hx)) st' he, hm]

/-- Loop invariant of `SupervisedRegression::new`: when every
`evaluation_measures` block of the input carries an empty measure list,
the measure accumulator stays `none`. -/
theorem regLoop_measure (input : List Json) :
    ∀ st : RegLoopState,
      (∀ item ∈ input, (item.get "name").asStr = some "evaluation_measures" →
        isEmptyMeasureBlock item = true) →
      st.evaluation_measures = none →
      ∀ st', input.foldlM regStep st = .ok st' →
        st'.evaluation_measures = none := by
  induction input with
  | nil =>
    intro st h hst st' he
    rw [List.foldlM_nil] at he
    injection he with h'
    rw [← h']
    exact hst
  | cons item rest ih =>
    intro st h hst st' he
    rw [List.foldlM_cons] at he
    cases hc : regStep st item with
    | error e =>
      rw [hc, except_bind_error] at he
      simp at he
    | ok st1 =>
      rw [hc, except_bind_ok] at he
      have hm : st1.evaluation_measures = none := by
        unfold regStep at hc
        split at hc
        · injection hc with h'
          rw [← h']
          exact hst
        · injection hc with h'
          rw [← h']
          exact hst
        · next heq =>
          rw [measure_new_empty item (h item (List.mem_cons_self item rest) heq),
            except_bind_ok] at hc
          injection hc with h'
          rw [← h']
        · injection hc with h'
          rw [← h']
          exact hst
        · simp at hc
      exact ih st1 (fun x hx => h x (List.mem_cons_of_mem item hx)) hm st' he

/-- C6: for a classification task input whose `evaluation_measures`
block is absent or carries an empty measure list, any successfully
resolved task has the default measure `PredictiveAccuracy`; for a
regression task input in the same situation, resolution never succeeds
(it panics at the final unwrap rather than applying a default). -/
theorem default_measure :
    (∀ (input : List Json) (c : SupervisedClassification),
      (∀ item ∈ input, (item.get "name").asStr = some "evaluation_measures" →
        isEmptyMeasureBlock item = true) →
      SupervisedClassification.new input = .ok c →
      c.evaluation_measures = .PredictiveAccuracy)
    ∧ (∀ (input : List Json) (r : SupervisedRegression),
      (∀ item ∈ input, (item.get "name").asStr = some "evaluation_measures" →
        isEmptyMeasureBlock item = true) →
      SupervisedRegression.new input ≠ .ok r) := by
  constructor
  · intro input c h hok
    unfold SupervisedClassification.new at hok
    cases hf : input.foldlM clsStep
        { source_data := none, estimation_procedure := none, cost_matrix := none,
          evaluation_measures := .PredictiveAccuracy } with
    | error e =>
      rw [hf, except_bind_error] at hok
      simp at hok
    | ok st =>
      rw [hf, except_bind_ok] at hok
      have hm := clsLoop_measure input _ h st hf
      cases hsd : st.source_data with
      | none =>
        rw [hsd] at hok
        simp [optionUnwrap, except_bind_error] at hok
      | some sd =>
        rw [hsd, show optionUnwrap (some sd) = Except.ok sd from rfl,
          except_bind_ok] at hok
        cases hep : st.estimation_procedure with
        | none =>
          rw [hep] at hok
          simp [optionUnwrap, except_bind_error] at hok
        | some ep =>
          rw [hep, show optionUnwrap (some ep) = Except.ok ep from rfl,
            except_bind_ok] at hok
          cases hcm : st.cost_matrix with
          | none =>
            rw [hcm] at hok
            simp [optionUnwrap, except_bind_error] at hok
          | some cm =>
            rw [hcm, show optionUnwrap (some cm) = Except.ok cm from rfl,
              except_bind_ok] at hok
            injection hok with h'
            rw [← h']
            exact hm
  · intro input r h hok
    unfold SupervisedRegression.new at hok
    cases hf : input.foldlM regStep
        { source_data := none, estimation_procedure := none,
          evaluation_measures := none } with
    | error e =>
      rw [hf, except_bind_error] at hok
      simp at hok
    | ok st =>
      rw [hf, except_bind_ok] at hok
      have hm := regLoop_measure input _ h rfl st hf
      cases hsd : st.source_data with
      | none =>
        rw [hsd] at hok
        simp [optionUnwrap, except_bind_error] at hok
      | some sd =>
        rw [hsd, show optionUnwrap (some sd) = Except.ok sd from rfl,
          except_bind_ok] at hok
        cases hep : st.estimation_procedure with
        | none =>
          rw [hep] at hok
          simp [optionUnwrap, except_bind_error] at hok
        | some ep =>
          rw [hep, show optionUnwrap (some ep) = Except.ok ep from rfl,
            except_bind_ok] at hok
          rw [hm] at hok
          simp [optionUnwrap, except_bind_error] at hok

/-- C6 witness: a classification input without a measures block
resolves with the `PredictiveAccuracy` default; a regression input
without a measures block never resolves. -/
theorem default_measure_witness :
    (SupervisedClassification.new inputCls = Except.ok clsW
      ∧ clsW.evaluation_measures = Measure.PredictiveAccuracy)
    ∧ SupervisedRegression.new inputReg ≠ Except.ok regW :=
  have hok : SupervisedClassification.new inputCls = Except.ok clsW := rfl
  ⟨⟨hok, default_measure.1 inputCls clsW (by decide) hok⟩,
   default_measure.2 inputReg regW (by decide)⟩

/-- C1 witness: well-formed records for a two-row dataset. -/
theorem fold_partition_of_wellformed_splits_witness :
    (∀ x ∈ (getFold (cvFromSplits cvDataOk) 0 0).trainset,
      x ∉ (getFold (cvFromSplits cvDataOk) 0 0).testset)
    ∧ (∀ x ∈ (getFold (cvFromSplits cvDataOk) 0 0).trainset, x < 2)
    ∧ (∀ x ∈ (getFold (cvFromSplits cvDataOk) 0 0).testset, x < 2) :=
  fold_partition_of_wellformed_splits cvDataOk 2 (by decide) (by decide) 0 0

end OpenML
